import Mathlib

/-!
Shallow embedding of the Astra share algebra and protocol engine of the
MP-SPDZ-FLAME repository, together with proofs checking the natural-language
specification against the code.

The ring of clear values is `Z/2^k`, embedded as `ZMod (2 ^ k)`; most
definitions are stated over an arbitrary commutative ring `R` and the claim
theorems instantiate `R := ZMod (2 ^ k)`.

Source correspondence:
* `FixedVec2` is `FixedVec<T, 2>` (`Math/FixedVec.h`), the two-limb container
  underlying `AstraShare` and `AstraPrepShare`.
* `AstraShare.*` and `AstraPrepShare.*` follow `Protocols/AstraShare.h`
  and `Protocols/Astra.hpp`.
* `AstraMC.*` follows `Protocols/AstraMC.hpp`.
* `Astra.*` and `AstraPrepProtocol.*` follow `Protocols/Astra.hpp`.
* `TruncPrTupleWithGap.*` follows `Processor/TruncPrTuple.h`.
* `octetStream.*` follows `Tools/octetStream.h` / `Tools/octetStream.cpp`.
* `ReplicatedBase.*` follows `Protocols/Replicated.hpp`.
-/

section DataModel

variable {R : Type} [CommRing R]

/-- Two-limb share container, `FixedVec<T, 2>` in the source. -/
structure FixedVec2 (R : Type) where
  c0 : R
  c1 : R
deriving DecidableEq

/-- Component-wise sum of the two limbs, `FixedVec::sum()`. -/
def FixedVec2.sum (x : FixedVec2 R) : R :=
  x.c0 + x.c1

/-- Component-wise addition, `FixedVec::operator+`. -/
instance : Add (FixedVec2 R) :=
  ⟨fun x y => ⟨x.c0 + y.c0, x.c1 + y.c1⟩⟩

/-- Default-constructed share: both limbs zero (value types zero-initialise). -/
instance : Zero (FixedVec2 R) :=
  ⟨⟨0, 0⟩⟩

theorem FixedVec2.add_def (x y : FixedVec2 R) :
    x + y = ⟨x.c0 + y.c0, x.c1 + y.c1⟩ :=
  rfl

theorem FixedVec2.zero_def :
    (0 : FixedVec2 R) = ⟨0, 0⟩ :=
  rfl

/-- Masked-value accessor `AstraShare::m(int)`: it ignores the party index and
returns limb 0. -/
def AstraShare.m (x : FixedVec2 R) (_my_num : ℤ) : R :=
  x.c0

/-- Accessor `AstraShare::neg_lambda(int)`: it ignores the party index and
returns limb 1. -/
def AstraShare.neg_lambda (x : FixedVec2 R) (_my_num : ℤ) : R :=
  x.c1

/-- Accessor `AstraShare::lambda(int)`: the negation of `neg_lambda`. -/
def AstraShare.lambda (x : FixedVec2 R) (my_num : ℤ) : R :=
  - AstraShare.neg_lambda x my_num

/-- Online local multiplication for party 1, `AstraShare::local_mul_P1`:
`m(1) * other.neg_lambda(1) + other.m(1) * neg_lambda(1)`. -/
def AstraShare.local_mul_P1 (x y : FixedVec2 R) : R :=
  AstraShare.m x 1 * AstraShare.neg_lambda y 1 +
    AstraShare.m y 1 * AstraShare.neg_lambda x 1

/-- Online local multiplication for party 2, `AstraShare::local_mul_P2`:
`m(2) * other.m(2) + local_mul_P1(other)`. -/
def AstraShare.local_mul_P2 (x y : FixedVec2 R) : R :=
  AstraShare.m x 2 * AstraShare.m y 2 + AstraShare.local_mul_P1 x y

/-- Preprocessing local multiplication for party 0,
`AstraPrepShare::local_mul_P0`: `sum() * other.sum()`. -/
def AstraPrepShare.local_mul_P0 (x y : FixedVec2 R) : R :=
  FixedVec2.sum x * FixedVec2.sum y

/-- Preprocessing local multiplication for party 1,
`AstraPrepShare::local_mul_P1`: delegates to `local_mul_P0`. -/
def AstraPrepShare.local_mul_P1 (x y : FixedVec2 R) : R :=
  AstraPrepShare.local_mul_P0 x y

/-- Preprocessing local multiplication for party 2,
`AstraPrepShare::local_mul_P2`: returns the zero value. -/
def AstraPrepShare.local_mul_P2 (_x _y : FixedVec2 R) : R :=
  0

/-- Constant sharing `AstraShare::constant(value, my_num)`: on a
zero-initialised share it sets `res.m(my_num + 1) = value`; since
`AstraShare::m` ignores its party argument, limb 0 becomes `value` for every
caller and limb 1 stays zero. -/
def AstraShare.constant (value : R) (_my_num : ℤ) : FixedVec2 R :=
  ⟨value, 0⟩

/-- Constant sharing `AstraPrepShare::constant`: returns the all-zero share. -/
def AstraPrepShare.constant (_value : R) (_my_num : ℤ) : FixedVec2 R :=
  ⟨0, 0⟩

/-- Summand transmitted when opening, `AstraMC::prepare_summand`:
`m - lambda` for party 1, `-lambda` otherwise. -/
def AstraMC.prepare_summand (secret : FixedVec2 R) (my_num : ℤ) : R :=
  if my_num = 1 then
    AstraShare.m secret my_num - AstraShare.lambda secret my_num
  else
    - AstraShare.lambda secret my_num

/-- Modelled from the spec: the inner `SemiMC` opener used by
`AstraMC::exchange` is not under `src/`; per the spec each party adds the
summand received from the other online party to its own summand. -/
def AstraMC.finalize_summands (own received : R) : R :=
  own + received

/-- Opened value of a sharing held as `x1` by online party 1 and `x2` by
online party 2: `AstraMC::exchange` has party 1 and party 2 prepare their
summands and each add the received one. -/
def AstraMC.open_value (x1 x2 : FixedVec2 R) : R :=
  AstraMC.finalize_summands (AstraMC.prepare_summand x1 1)
    (AstraMC.prepare_summand x2 2)

end DataModel

section SpecFormulas

variable {R : Type} [CommRing R]

/-- Spec-side formula for the helper local multiplication:
`s(x) * s(y)` with `s = limb[0] + limb[1]` (spec section 4.2). -/
def spec_local_mul_P0 (x y : FixedVec2 R) : R :=
  (x.c0 + x.c1) * (y.c0 + y.c1)

/-- Spec-side formula for party 1: `m(x)*l(y) + m(y)*l(x)` with `m = limb[0]`
and `l = -lambda = limb[1]` (spec section 4.2). -/
def spec_local_mul_P1 (x y : FixedVec2 R) : R :=
  x.c0 * y.c1 + y.c0 * x.c1

/-- Spec-side formula for party 2: `m(x)*m(y) + local_mul_P1(x, y)`
(spec section 4.2). -/
def spec_local_mul_P2 (x y : FixedVec2 R) : R :=
  x.c0 * y.c0 + spec_local_mul_P1 x y

end SpecFormulas

section OnlineProtocol

variable {R : Type} [CommRing R]

/-- Local multiplication dispatched on the online party index, as in
`Astra::exchange`: party 1 uses `local_mul_P1`, party 2 uses `local_mul_P2`. -/
def Astra.local_mul_V (my_num : ℤ) (x y : FixedVec2 R) : R :=
  if my_num = 1 then AstraShare.local_mul_P1 x y else AstraShare.local_mul_P2 x y

/-- Per-multiplication step `Astra::pre(input)`: read `gamma` and the
lambda-limb from the preprocessing tape (two `open_type` limbs, in that
order), form `m_z = input - res.neg_lambda + gamma`, append `m_z` to the
outbound buffer and store it as the m-limb of the result.  Returns the
result share, the outbound value and the remaining tape; `none` models the
unchecked read (`get_no_check`) past the end of the tape. -/
def Astra.pre (tape : List R) (input : R) :
    Option (FixedVec2 R × R × List R) :=
  match tape with
  | gamma :: lam :: rest => some (⟨input - lam + gamma, lam⟩, input - lam + gamma, rest)
  | _ => none

/-- Loop of `Astra::exchange` over the input pairs: apply `Astra.pre` to the
local multiplication of each pair, collecting the result shares and the
outbound buffer while consuming the tape. -/
def Astra.pre_run (my_num : ℤ) :
    List (FixedVec2 R × FixedVec2 R) → List R →
    Option (List (FixedVec2 R) × List R × List R)
  | [], tape => some ([], [], tape)
  | (x, y) :: pairs, tape =>
    match Astra.pre tape (Astra.local_mul_V my_num x y) with
    | some (res, m_z, tape1) =>
      match Astra.pre_run my_num pairs tape1 with
      | some (results, os, tapeLeft) => some (res :: results, m_z :: os, tapeLeft)
      | none => none
    | none => none

/-- Outbound buffer assembled by `Astra::exchange` before the network round:
the list of `m_z` values, one per input pair. -/
def Astra.outbound (my_num : ℤ) (pairs : List (FixedVec2 R × FixedVec2 R))
    (tape : List R) : Option (List R) :=
  match Astra.pre_run my_num pairs tape with
  | some (_, os, _) => some os
  | none => none

/-- Online multiplication exchange `Astra::exchange` of one party
(`my_num` is 1 or 2): the preprocessing-tape chunk `tape` is checked against
`open_type::size() * n_mults` and a short chunk raises
"insufficient preprocessing"; then each input pair is processed by
`Astra::pre`; the received buffer is checked ("insufficient data in Astra")
and its values added to the m-limbs; finally `assert(not os_prep.left())`
requires the tape chunk to be fully consumed. -/
def Astra.exchange (my_num : ℤ) (pairs : List (FixedVec2 R × FixedVec2 R))
    (tape recv : List R) : Except String (List (FixedVec2 R)) :=
  if tape.length < pairs.length then
    .error "insufficient preprocessing"
  else
    match Astra.pre_run my_num pairs tape with
    | none => .error "unchecked read past the preprocessing buffer"
    | some (results, _os, tapeLeft) =>
      if recv.length < results.length then
        .error "insufficient data in Astra"
      else
        let final := (results.zip recv).map fun rv => ⟨rv.1.c0 + rv.2, rv.1.c1⟩
        if tapeLeft.isEmpty then .ok final
        else .error "assertion failed: leftover preprocessing data"

end OnlineProtocol

section PrepProtocol

variable {R : Type} [CommRing R]

/-- Shared-PRNG draws consumed by the preprocessing of one multiplication.
`lam1` and `gamma` come from the stream shared by parties 0 and 1
(party 0: `shared_prngs[0]`, party 1: `shared_prngs[1]`); `lam2` comes from
the stream shared by parties 2 and 0 (party 0: `shared_prngs[1]`, party 2:
`shared_prngs[0]`).  Both holders of a stream draw the same values in the
same order, so one triple per multiplication captures all draws. -/
structure PrepDraws (R : Type) where
  lam1 : R
  gamma : R
  lam2 : R

/-- Preprocessing message of party 0 for one multiplication
(`AstraPrepProtocol::pre_gamma` with `my_num = 0`): it stores
`input - gamma` for party 2, where `input = local_mul_P0(x, y)`. -/
def AstraPrepProtocol.p0_message (d : PrepDraws R) (x y : FixedVec2 R) : R :=
  AstraPrepShare.local_mul_P0 x y - d.gamma

/-- Preprocessing-tape entry written by party 1 for one multiplication
(`AstraPrepProtocol::post`): `gamma` followed by the lambda-limb `res[1]`,
which party 1 draws from the stream shared with party 0. -/
def AstraPrepProtocol.tape1_entry (d : PrepDraws R) : List R :=
  [d.gamma, d.lam1]

/-- Preprocessing-tape entry written by party 2 for one multiplication
(`AstraPrepProtocol::exchange`, `my_num = 2` branch): the value received from
party 0 followed by the lambda-limb `res[1]` drawn from the stream shared
with party 0. -/
def AstraPrepProtocol.tape2_entry (d : PrepDraws R) (received : R) : List R :=
  [received, d.lam2]

/-- Composition of preprocessing and online phase for one multiplication:
party 0 runs the preprocessing exchange producing the tapes for parties 1
and 2 (via `p0_message`, `tape1_entry`, `tape2_entry`); the online parties
run `Astra::exchange` on their tapes, exchanging outbound buffers; the two
result shares are opened with `AstraMC`.  `x0` and `y0` are the
helper-side lambda sharings, `x1, x2, y1, y2` the online shares. -/
def Astra.multiply_open (d : PrepDraws R) (x0 y0 x1 y1 x2 y2 : FixedVec2 R) :
    Except String R :=
  let c := AstraPrepProtocol.p0_message d x0 y0
  let tape1 := AstraPrepProtocol.tape1_entry d
  let tape2 := AstraPrepProtocol.tape2_entry d c
  match Astra.outbound 1 [(x1, y1)] tape1, Astra.outbound 2 [(x2, y2)] tape2 with
  | some os1, some os2 =>
    match Astra.exchange 1 [(x1, y1)] tape1 os2,
        Astra.exchange 2 [(x2, y2)] tape2 os1 with
    | .ok [z1], .ok [z2] => .ok (AstraMC.open_value z1 z2)
    | _, _ => .error "online multiplication failed"
  | _, _ => .error "outbound assembly failed"

end PrepProtocol

section TapeBytes

/-- Byte size of an `open_type` limb in `Z/2^k`: `DIV_CEIL(K, 8)`
(`Z2<K>::size()` in `Math/Z2k.h`). -/
def open_type_size (k : ℕ) : ℕ :=
  (k + 7) / 8

end TapeBytes

section TruncPr

/-- Probabilistic-truncation tuple with the gap flag,
`TruncPrTupleWithGap` from `Processor/TruncPrTuple.h`.  The `k` and `m`
fields are the C++ `int` register arguments. -/
structure TruncPrTupleWithGap where
  k : ℤ
  m : ℤ
  big_gap_ : Bool
deriving DecidableEq

/-- Accessor `TruncPrTupleWithGap::big_gap()`. -/
def TruncPrTupleWithGap.big_gap (t : TruncPrTupleWithGap) : Bool :=
  t.big_gap_

/-- Accessor `TruncPrTupleWithGap::small_gap()`: `not big_gap()`. -/
def TruncPrTupleWithGap.small_gap (t : TruncPrTupleWithGap) : Bool :=
  ! t.big_gap

/-- Constructor `TruncPrTupleWithGap::TruncPrTupleWithGap`: the flag is set to
`k <= T::n_bits() - OnlineOptions::singleton.trunc_error` at construction
time, and a small-gap tuple over a prime field raises
"domain too small for chosen truncation error".  `n_bits` is the ring
bitwidth, `trunc_error` the statistical-security parameter; neither the flag
nor the failure depends on the party number. -/
def TruncPrTupleWithGap.construct (prime_field : Bool) (n_bits trunc_error : ℤ)
    (k m : ℤ) : Except String TruncPrTupleWithGap :=
  if prime_field ∧
      TruncPrTupleWithGap.small_gap ⟨k, m, decide (k ≤ n_bits - trunc_error)⟩ then
    .error "domain too small for chosen truncation error"
  else
    .ok ⟨k, m, decide (k ≤ n_bits - trunc_error)⟩

/-- Modelled from the spec: the default of the command-line option
`--trunc-error` lives in `Processor/OnlineOptions.cpp`, which is not under
`src/`; the spec fixes the default statistical-security parameter at 40. -/
def OnlineOptions.trunc_error_default : ℤ :=
  40

end TruncPr

section WireFormat

/-- Length-field width used by `octetStream::Send`, `LENGTH_SIZE` from
`Tools/octetStream.h`: "32-bit length fields for compatibility". -/
def LENGTH_SIZE : ℕ :=
  4

/-- Little-endian length encoding on `n_bytes` bytes, the semantics of
`encode_length` (`Networking/data.h`, via `htole64`): least-significant byte
first. -/
def encode_length : ℕ → ℕ → List ℕ
  | 0, _ => []
  | n + 1, len => len % 256 :: encode_length n (len / 256)

/-- Little-endian byte-sequence decoding, the semantics of `decode_length`. -/
def decode_length (bytes : List ℕ) : ℕ :=
  bytes.foldr (fun b acc => b + 256 * acc) 0

/-- Wire frame produced by `octetStream::Send`: the length is sent first via
`send(socket_num, get_length(), LENGTH_SIZE)`, i.e. on `LENGTH_SIZE` = 4
bytes, followed by the data bytes. -/
def octetStream.SendFrame (data : List ℕ) : List ℕ :=
  encode_length LENGTH_SIZE data.length ++ data

/-- File record produced by `octetStream::output`: the length is written
first as a raw `size_t` (`s.write((char*)&len, sizeof(len))`, eight bytes,
little-endian on the reference platform), followed by the data bytes. -/
def octetStream.outputRecord (data : List ℕ) : List ℕ :=
  encode_length 8 data.length ++ data

end WireFormat

section CorrelatedPrng

/-- Seeds of the two shared PRNGs on each party after the
`ReplicatedBase::ReplicatedBase(Player&)` setup: `shared_prngs[0]` is
re-seeded with the party's own fresh seed; the seed is passed around the ring
with offset 1 (modelled from the spec: party `i` sends its seed to party
`i + 1` and `Player::pass_around` is not under `src/`), so `shared_prngs[1]`
is seeded with the seed received from party `i - 1`. -/
def ReplicatedBase.prng_seed (seeds : Fin 3 → ℕ) (i : Fin 3) (j : Fin 2) : ℕ :=
  if j = 0 then seeds i else seeds (i - 1)

end CorrelatedPrng

section DotProd

variable {R : Type} [CommRing R]

/-- State of `AstraBase` relevant to dot products: the pairs accumulated by
`prepare_dotprod` and the `inputs` entries produced by `next_dotprod`. -/
structure AstraBaseState (R : Type) where
  input_pairs : List (FixedVec2 R × FixedVec2 R)
  inputs : List R
  n_mults : ℕ

/-- Accumulation step `AstraBase::next_dotprod`: push one zero-initialised
entry onto `inputs`, add `local_mul_P<i>` of every accumulated pair into that
entry, increment `n_mults` and clear `input_pairs`.  `local_mul` is the
share-type local multiplication of the calling party. -/
def AstraBase.next_dotprod (local_mul : FixedVec2 R → FixedVec2 R → R)
    (st : AstraBaseState R) : AstraBaseState R :=
  { input_pairs := []
    inputs := st.inputs ++
      [st.input_pairs.foldl (fun acc p => acc + local_mul p.1 p.2) 0]
    n_mults := st.n_mults + 1 }

/-- Result-queue step `Astra::finalize_mul` / `AstraPrepProtocol::finalize_mul`:
`results.next()` pops the next queued share; popping an empty queue is an
unchecked access, modelled as `none`. -/
def AstraBase.finalize_mul (results : List (FixedVec2 R)) :
    Option (FixedVec2 R × List (FixedVec2 R)) :=
  match results with
  | r :: rest => some (r, rest)
  | [] => none

/-- Dot-product finaliser `AstraBase::finalize_dotprod(int)`: it discards the
length argument and simply returns `finalize_mul()`. -/
def AstraBase.finalize_dotprod (_length : ℤ)
    (results : List (FixedVec2 R)) :
    Option (FixedVec2 R × List (FixedVec2 R)) :=
  AstraBase.finalize_mul results

/-- Generic dot-product finaliser `ProtocolBase::finalize_dotprod(int)`: start
from a zero share and add `length` consecutive `finalize_mul()` results. -/
def ProtocolBase.finalize_dotprod :
    ℕ → List (FixedVec2 R) → Option (FixedVec2 R × List (FixedVec2 R))
  | 0, results => some (0, results)
  | n + 1, results =>
    match AstraBase.finalize_mul results with
    | some (r, rest) =>
      match ProtocolBase.finalize_dotprod n rest with
      | some (s, final) => some (r + s, final)
      | none => none
    | none => none

end DotProd

section Claim2

/-- C2: the party-specific local multiplication formulas of the Astra share
types are exactly those of the spec table: the helper computes
`s(x) * s(y)` with `s = limb[0] + limb[1]`, online party 1 computes
`m(x)*l(y) + m(y)*l(x)` with `m = limb[0]` and `l = limb[1]`, and online
party 2 computes `m(x)*m(y) + local_mul_P1(x, y)`. -/
theorem claim_C2_local_mul_formulas (k : ℕ)
    (x y : FixedVec2 (ZMod (2 ^ k))) :
    AstraPrepShare.local_mul_P0 x y = spec_local_mul_P0 x y ∧
    AstraShare.local_mul_P1 x y = spec_local_mul_P1 x y ∧
    AstraShare.local_mul_P2 x y = spec_local_mul_P2 x y := by
  refine ⟨?_, ?_, ?_⟩ <;>
    simp [AstraPrepShare.local_mul_P0, AstraShare.local_mul_P1,
      AstraShare.local_mul_P2, spec_local_mul_P0, spec_local_mul_P1,
      spec_local_mul_P2, FixedVec2.sum, AstraShare.m, AstraShare.neg_lambda]

end Claim2

section Claim5

/-- C5, counterexample: the claim says the masked value of a constant sharing
is materialised only by party 1, all other roles holding a zero m-limb; but
`AstraShare::constant` ignores its party argument, so the online share built
by party 2 carries `value` in its m-limb as well (here `value = 1`, party
index 2). -/
theorem claim_C5_counterexample :
    (AstraShare.constant (1 : ZMod (2 ^ 64)) 2).c0 ≠ 0 := by
  decide

/-- C5, amended: `constant(c)` produces a sharing with masked value `m = c`
and mask `lambda = 0`; the m-limb is materialised by every caller of the
online share type (both online parties), while the helper-side prep share is
all zero; opening the resulting sharing returns `c`. -/
theorem claim_C5_constant_invariance (k : ℕ) (c : ZMod (2 ^ k))
    (my_num my_num2 : ℤ) :
    AstraShare.constant c my_num = ⟨c, 0⟩ ∧
    AstraShare.m (AstraShare.constant c my_num) my_num = c ∧
    AstraShare.lambda (AstraShare.constant c my_num) my_num = 0 ∧
    AstraPrepShare.constant c my_num2 = ⟨0, 0⟩ ∧
    AstraMC.open_value (AstraShare.constant c 1) (AstraShare.constant c 2)
      = c := by
  refine ⟨rfl, rfl, ?_, rfl, ?_⟩
  all_goals
    simp [AstraShare.lambda, AstraShare.neg_lambda, AstraShare.constant,
      AstraMC.open_value, AstraMC.finalize_summands, AstraMC.prepare_summand,
      AstraShare.m]

end Claim5

section Claim4

/-- C4: when opening an Astra sharing, party 1 transmits
`m - lambda(1) = limb[0] + limb[1]` of its share, party 2 transmits
`-lambda(2) = limb[1]` of its share, each party adds the received summand to
its own (both orders give the same total), and the opened value equals
`m - lambda(1) - lambda(2)`, the shared value. -/
theorem claim_C4_open_summands (k : ℕ) (x1 x2 : FixedVec2 (ZMod (2 ^ k)))
    (xv : ZMod (2 ^ k))
    (h : AstraShare.m x1 1 - AstraShare.lambda x1 1 - AstraShare.lambda x2 2
        = xv) :
    AstraMC.prepare_summand x1 1 = x1.c0 + x1.c1 ∧
    AstraMC.prepare_summand x2 2 = x2.c1 ∧
    AstraMC.open_value x1 x2 =
      AstraMC.finalize_summands (AstraMC.prepare_summand x1 1)
        (AstraMC.prepare_summand x2 2) ∧
    AstraMC.finalize_summands (AstraMC.prepare_summand x2 2)
        (AstraMC.prepare_summand x1 1) = AstraMC.open_value x1 x2 ∧
    AstraMC.open_value x1 x2 = xv := by
  subst h
  refine ⟨?_, ?_, rfl, ?_, ?_⟩
  all_goals
    simp [AstraMC.prepare_summand, AstraMC.finalize_summands,
      AstraMC.open_value, AstraShare.m, AstraShare.lambda,
      AstraShare.neg_lambda]
  all_goals ring

/-- C4, witness at a concrete input: the sharing `x1 = (5, 1)`, `x2 = (5, 2)`
of the value 8 over `Z/2^64` opens to 8. -/
theorem claim_C4_open_summands_witness :
    (AstraShare.m (⟨5, 1⟩ : FixedVec2 (ZMod (2 ^ 64))) 1 -
        AstraShare.lambda (⟨5, 1⟩ : FixedVec2 (ZMod (2 ^ 64))) 1 -
        AstraShare.lambda (⟨5, 2⟩ : FixedVec2 (ZMod (2 ^ 64))) 2 = 8) ∧
    AstraMC.open_value (⟨5, 1⟩ : FixedVec2 (ZMod (2 ^ 64))) ⟨5, 2⟩ = 8 :=
  ⟨by decide, (claim_C4_open_summands 64 ⟨5, 1⟩ ⟨5, 2⟩ 8 (by decide)).2.2.2.2⟩

end Claim4

section Claim6

/-- C6: a probabilistic-truncation tuple is classified big gap iff
`k <= n_bits - trunc_error`; the flag is fixed at construction time from
`(k, n_bits, trunc_error)` alone (the constructor takes no party input), and
construction of a small-gap tuple over a prime field fails with
"domain too small for chosen truncation error".  The default of
`trunc_error` is 40. -/
theorem claim_C6_big_gap_classification (prime_field : Bool)
    (n_bits trunc_error k m : ℤ) :
    (∀ t, TruncPrTupleWithGap.construct prime_field n_bits trunc_error k m
        = .ok t →
      t = ⟨k, m, decide (k ≤ n_bits - trunc_error)⟩ ∧
      (t.big_gap = true ↔ k ≤ n_bits - trunc_error) ∧
      t.small_gap = ! t.big_gap) ∧
    (TruncPrTupleWithGap.construct prime_field n_bits trunc_error k m
        = .error "domain too small for chosen truncation error" ↔
      prime_field = true ∧ ¬ k ≤ n_bits - trunc_error) ∧
    OnlineOptions.trunc_error_default = 40 := by
  refine ⟨?_, ?_, rfl⟩
  · intro t ht
    have hok : t = ⟨k, m, decide (k ≤ n_bits - trunc_error)⟩ := by
      unfold TruncPrTupleWithGap.construct at ht
      split at ht
      · cases ht
      · cases ht
        rfl
    subst hok
    refine ⟨rfl, ?_, rfl⟩
    simp [TruncPrTupleWithGap.big_gap]
  · constructor
    · intro h
      unfold TruncPrTupleWithGap.construct at h
      split at h
      case isTrue hc =>
        refine ⟨hc.1, ?_⟩
        simpa [TruncPrTupleWithGap.small_gap, TruncPrTupleWithGap.big_gap]
          using hc.2
      case isFalse hc => cases h
    · intro h
      obtain ⟨h1, h2⟩ := h
      unfold TruncPrTupleWithGap.construct
      rw [if_pos ⟨h1, by
        simp [TruncPrTupleWithGap.small_gap, TruncPrTupleWithGap.big_gap, h2]⟩]

/-- C6, witness at concrete inputs: over the 64-bit ring with the default
error 40, the tuple `(k, m) = (24, 5)` is constructed big gap, and a
prime-field tuple with `k = 30` fails to construct. -/
theorem claim_C6_big_gap_classification_witness :
    ((⟨24, 5, true⟩ : TruncPrTupleWithGap).big_gap = true ↔
      (24 : ℤ) ≤ 64 - 40) ∧
    TruncPrTupleWithGap.construct true 64 40 30 5
      = .error "domain too small for chosen truncation error" :=
  ⟨((claim_C6_big_gap_classification false 64 40 24 5).1 ⟨24, 5, true⟩
      (by rfl)).2.1,
    (claim_C6_big_gap_classification true 64 40 30 5).2.1.mpr
      ⟨rfl, by decide⟩⟩

end Claim6

section Claim8

/-- C8, counterexample: with pairwise distinct seeds `(0, 1, 2)`, the seed of
`prng[0]` on party 0 is 0 while the seed of `prng[1]` on party `0 - 1 = 2`
is 1, so the two generators do not produce the same stream; the sharing is
with party `i + 1`, not with party `i - 1` as the claim states. -/
theorem claim_C8_counterexample :
    ReplicatedBase.prng_seed (fun j : Fin 3 => (j : ℕ)) 0 0 ≠
      ReplicatedBase.prng_seed (fun j : Fin 3 => (j : ℕ)) (0 - 1) 1 := by
  decide

/-- C8, amended: after the correlated-PRNG setup, `prng[0]` of party `i` and
`prng[1]` of party `i + 1` carry the same seed (party i passes its own seed
one step around the ring), hence any deterministic seed-keyed stream yields
the same draws on both: each adjacent pair of parties shares exactly one
PRNG stream without communication. -/
theorem claim_C8_shared_prng_pairing (V : Type) (stream : ℕ → ℕ → V)
    (seeds : Fin 3 → ℕ) (i : Fin 3) (n : ℕ) :
    ReplicatedBase.prng_seed seeds i 0 =
      ReplicatedBase.prng_seed seeds (i + 1) 1 ∧
    stream (ReplicatedBase.prng_seed seeds i 0) n =
      stream (ReplicatedBase.prng_seed seeds (i + 1) 1) n := by
  have h : ReplicatedBase.prng_seed seeds i 0 =
      ReplicatedBase.prng_seed seeds (i + 1) 1 := by
    simp [ReplicatedBase.prng_seed]
  exact ⟨h, by rw [h]⟩

end Claim8

section Claim9

/-- Helper: an `n`-byte little-endian length field decodes back to the length
whenever the length fits in `n` bytes. -/
theorem decode_encode_length (n len : ℕ) (h : len < 256 ^ n) :
    decode_length (encode_length n len) = len := by
  induction n generalizing len with
  | zero =>
    simp only [encode_length, decode_length, List.foldr_nil]
    omega
  | succ n ih =>
    have hdiv : len / 256 < 256 ^ n := by
      rw [Nat.div_lt_iff_lt_mul (by norm_num)]
      calc len < 256 ^ (n + 1) := h
        _ = 256 ^ n * 256 := by ring
    simp only [encode_length, decode_length, List.foldr_cons]
    have := ih (len / 256) hdiv
    simp only [decode_length] at this
    rw [this, Nat.mod_add_div]

/-- Helper: the encoded length field occupies exactly `n` bytes. -/
theorem encode_length_length (n len : ℕ) :
    (encode_length n len).length = n := by
  induction n generalizing len with
  | zero => rfl
  | succ n ih => simp [encode_length, ih]

/-- C9, counterexample: the wire frame produced by `octetStream::Send` for a
one-byte payload is not prefixed with an eight-byte length field; its length
prefix is `LENGTH_SIZE = 4` bytes ("32-bit length fields for
compatibility"), so the whole frame has 5 bytes, not 9. -/
theorem claim_C9_counterexample :
    octetStream.SendFrame [7] ≠ encode_length 8 ([7] : List ℕ).length ++ [7]
      ∧ (octetStream.SendFrame [7]).length = 5 := by
  constructor
  · decide
  · rfl

/-- C9, amended: a wire message sent by `octetStream::Send` is prefixed with
its byte length on `LENGTH_SIZE = 4` bytes in little-endian order, while a
preprocessing-tape record stored by `octetStream::output` is prefixed with
its byte length on eight bytes (a raw `size_t`, little-endian on the
reference platform); both prefixes decode back to the payload length when it
fits the field. -/
theorem claim_C9_length_prefixes (data : List ℕ)
    (h4 : data.length < 256 ^ 4) (h8 : data.length < 256 ^ 8) :
    octetStream.SendFrame data = encode_length 4 data.length ++ data ∧
    octetStream.outputRecord data = encode_length 8 data.length ++ data ∧
    (octetStream.SendFrame data).length = 4 + data.length ∧
    (octetStream.outputRecord data).length = 8 + data.length ∧
    decode_length ((octetStream.SendFrame data).take 4) = data.length ∧
    decode_length ((octetStream.outputRecord data).take 8) = data.length := by
  have t4 : (octetStream.SendFrame data).take 4 = encode_length 4 data.length := by
    simp [octetStream.SendFrame, LENGTH_SIZE, List.take_append_eq_append_take,
      encode_length_length]
  have t8 : (octetStream.outputRecord data).take 8 = encode_length 8 data.length := by
    simp [octetStream.outputRecord, List.take_append_eq_append_take,
      encode_length_length]
  refine ⟨rfl, rfl, ?_, ?_, ?_, ?_⟩
  · simp [octetStream.SendFrame, LENGTH_SIZE, encode_length_length]
  · simp [octetStream.outputRecord, encode_length_length]
  · rw [t4, decode_encode_length 4 data.length h4]
  · rw [t8, decode_encode_length 8 data.length h8]

/-- C9, witness at a concrete input: the one-byte payload `[7]` is framed for
the wire as 4 length bytes `[1, 0, 0, 0]` plus the payload, and recorded to
file as 8 length bytes plus the payload, both decoding back to length 1. -/
theorem claim_C9_length_prefixes_witness :
    (([7] : List ℕ).length < 256 ^ 4) ∧
    decode_length ((octetStream.SendFrame [7]).take 4) = 1 ∧
    decode_length ((octetStream.outputRecord [7]).take 8) = 1 :=
  ⟨by decide,
    (claim_C9_length_prefixes [7] (by decide) (by decide)).2.2.2.2.1,
    (claim_C9_length_prefixes [7] (by decide) (by decide)).2.2.2.2.2⟩

end Claim9

section Claim10

/-- Helper: the generic finaliser sums exactly `n` queued results, leaving
the rest of the queue. -/
theorem ProtocolBase.finalize_dotprod_eq_sum {R : Type} [CommRing R] :
    ∀ (n : ℕ) (results : List (FixedVec2 R)), n ≤ results.length →
      ProtocolBase.finalize_dotprod n results =
        some ((results.take n).foldr (fun a b => a + b) 0, results.drop n)
  | 0, results, _ => rfl
  | n + 1, [], h => absurd h (by simp)
  | n + 1, r :: rest, h => by
    have ih := ProtocolBase.finalize_dotprod_eq_sum n rest
      (by simpa using Nat.succ_le_succ_iff.mp h)
    simp only [ProtocolBase.finalize_dotprod, AstraBase.finalize_mul, ih,
      List.take_succ_cons, List.drop_succ_cons, List.foldr_cons]

/-- C10: `AstraBase::finalize_dotprod(n)` ignores its length argument and
returns exactly the next queued result (`finalize_mul`), in contrast to the
generic `ProtocolBase::finalize_dotprod`, which pops and sums `n`
multiplication results; the contrast is sound because
`AstraBase::next_dotprod` has already folded all accumulated
local-multiplication summands of the dot product into a single `inputs`
entry, clearing the pair buffer and counting one multiplication. -/
theorem claim_C10_finalize_dotprod (k : ℕ) (n1 n2 : ℤ)
    (results : List (FixedVec2 (ZMod (2 ^ k)))) (nn : ℕ)
    (hnn : nn ≤ results.length)
    (local_mul : FixedVec2 (ZMod (2 ^ k)) → FixedVec2 (ZMod (2 ^ k)) →
      ZMod (2 ^ k))
    (st : AstraBaseState (ZMod (2 ^ k))) :
    AstraBase.finalize_dotprod n1 results = AstraBase.finalize_mul results ∧
    AstraBase.finalize_dotprod n1 results
      = AstraBase.finalize_dotprod n2 results ∧
    ProtocolBase.finalize_dotprod nn results
      = some ((results.take nn).foldr (fun a b => a + b) 0,
          results.drop nn) ∧
    (AstraBase.next_dotprod local_mul st).inputs = st.inputs ++
      [st.input_pairs.foldl (fun acc p => acc + local_mul p.1 p.2) 0] ∧
    (AstraBase.next_dotprod local_mul st).input_pairs = [] ∧
    (AstraBase.next_dotprod local_mul st).n_mults = st.n_mults + 1 :=
  ⟨rfl, rfl, ProtocolBase.finalize_dotprod_eq_sum nn results hnn, rfl, rfl,
    rfl⟩

/-- C10, witness at a concrete input: on the queue `[(1,2), (3,4)]` over
`Z/2^64` the generic finaliser with length 2 returns the sum `(4,6)` and
empties the queue, while the Astra finaliser returns the single head
`(1,2)` for any length argument. -/
theorem claim_C10_finalize_dotprod_witness :
    ProtocolBase.finalize_dotprod 2
        ([⟨1, 2⟩, ⟨3, 4⟩] : List (FixedVec2 (ZMod (2 ^ 64))))
      = some (⟨4, 6⟩, []) ∧
    AstraBase.finalize_dotprod 2
        ([⟨1, 2⟩, ⟨3, 4⟩] : List (FixedVec2 (ZMod (2 ^ 64))))
      = some (⟨1, 2⟩, [⟨3, 4⟩]) := by
  have h := (claim_C10_finalize_dotprod 64 2 5 [⟨1, 2⟩, ⟨3, 4⟩] 2
    (by decide) (fun _ _ => 0) ⟨[], [], 0⟩).2.2.1
  rw [h]
  exact ⟨by decide, rfl⟩

end Claim10

section Claim3

/-- C3, counterexample: in the online round the code forms
`M_z = V - t + gamma` where `t` is the second tape component, the stored
neg-lambda limb of the result, i.e. `t = -lambda(xy)`; the claimed formula
`M_z = V - lambda(xy) + gamma` therefore has the wrong sign.  At
`V = 0, gamma = 0, t = 1` over `Z/2^2` the code outputs `3 = -1`, while the
claimed formula gives `0 - lambda((3, 1)) + 0 = 1`. -/
theorem claim_C3_counterexample :
    Astra.outbound 1 [((⟨0, 0⟩ : FixedVec2 (ZMod (2 ^ 2))), ⟨0, 0⟩)] [0, 1]
      = some [3] ∧
    (3 : ZMod (2 ^ 2)) ≠
      Astra.local_mul_V 1 (⟨0, 0⟩ : FixedVec2 (ZMod (2 ^ 2))) ⟨0, 0⟩ -
        AstraShare.lambda (⟨3, 1⟩ : FixedVec2 (ZMod (2 ^ 2))) 1 + 0 := by
  exact ⟨rfl, by decide⟩

/-- C3, amended: each online party `i` forms for every multiplication the
outbound value `M_z = V - t + gamma`, where `V = local_mul_P_i(x, y)` and
`(gamma, t)` is the next pair read from the preprocessing tape with
`t = -lambda(xy)` the stored neg-lambda limb (equivalently
`M_z = V + lambda(xy) + gamma`); `M_z` is stored as the m-limb of the
result, and after the single exchange between parties 1 and 2 the m-limb
becomes `M_z_local + M_z_received`. -/
theorem claim_C3_online_round (k : ℕ) (my_num : ℤ)
    (x y : FixedVec2 (ZMod (2 ^ k))) (gamma t w : ZMod (2 ^ k))
    (rest : List (ZMod (2 ^ k))) :
    Astra.pre (gamma :: t :: rest) (Astra.local_mul_V my_num x y)
      = some (⟨Astra.local_mul_V my_num x y - t + gamma, t⟩,
          Astra.local_mul_V my_num x y - t + gamma, rest) ∧
    Astra.local_mul_V my_num x y - t + gamma
      = Astra.local_mul_V my_num x y +
          AstraShare.lambda
            ⟨Astra.local_mul_V my_num x y - t + gamma, t⟩ my_num + gamma ∧
    Astra.local_mul_V 1 x y = AstraShare.local_mul_P1 x y ∧
    Astra.local_mul_V 2 x y = AstraShare.local_mul_P2 x y ∧
    Astra.outbound my_num [(x, y)] [gamma, t]
      = some [Astra.local_mul_V my_num x y - t + gamma] ∧
    Astra.exchange my_num [(x, y)] [gamma, t] [w]
      = .ok [⟨Astra.local_mul_V my_num x y - t + gamma + w, t⟩] := by
  refine ⟨rfl, ?_, by simp [Astra.local_mul_V], ?_, rfl, rfl⟩
  · simp only [AstraShare.lambda, AstraShare.neg_lambda]
    ring
  · simp [Astra.local_mul_V]

end Claim3

section Claim7

/-- Helper: a successful pass of the `Astra::exchange` loop consumes exactly
two tape limbs per input pair and yields one result and one outbound value
per pair. -/
theorem Astra.pre_run_lengths {R : Type} [CommRing R] (my_num : ℤ) :
    ∀ (pairs : List (FixedVec2 R × FixedVec2 R)) (tape : List R) results os
      tapeLeft,
      Astra.pre_run my_num pairs tape = some (results, os, tapeLeft) →
      tape.length = 2 * pairs.length + tapeLeft.length ∧
      results.length = pairs.length ∧ os.length = pairs.length
  | [], tape, results, os, tapeLeft, h => by
    cases h
    simp
  | (x, y) :: pairs, [], results, os, tapeLeft, h => by
    cases h
  | (x, y) :: pairs, [_], results, os, tapeLeft, h => by
    cases h
  | (x, y) :: pairs, gamma :: t :: rest, results, os, tapeLeft, h => by
    revert h
    simp only [Astra.pre_run, Astra.pre]
    cases hrec : Astra.pre_run my_num pairs rest with
    | none => intro h; cases h
    | some triple =>
      obtain ⟨rs, os1, tl⟩ := triple
      intro h
      cases h
      obtain ⟨h1, h2, h3⟩ := Astra.pre_run_lengths my_num pairs rest rs os1
        tapeLeft hrec
      refine ⟨?_, by simp [h2], by simp [h3]⟩
      simp only [List.length_cons, h1]
      omega

end Claim7

section Claim7Main

/-- C7, counterexample: a successful online batch of one multiplication
consumes a fully-drained tape chunk of two `open_type` limbs, i.e.
`2 * |open_type| = 16` bytes at `k = 64`, not `batch * |open_type| = 8`
bytes as claimed. -/
theorem claim_C7_counterexample :
    Astra.exchange 1 [((⟨0, 0⟩ : FixedVec2 (ZMod (2 ^ 64))), ⟨0, 0⟩)]
        [0, 0] [0]
      = Except.ok ([⟨(0 : ZMod (2 ^ 64)) - 0 + 0 + 0, 0⟩] :
          List (FixedVec2 (ZMod (2 ^ 64)))) ∧
    ([0, 0] : List (ZMod (2 ^ 64))).length * open_type_size 64 ≠
      ([(⟨0, 0⟩, ⟨0, 0⟩)] :
          List (FixedVec2 (ZMod (2 ^ 64)) × FixedVec2 (ZMod (2 ^ 64)))).length *
        open_type_size 64 :=
  ⟨rfl, by decide⟩

/-- C7, amended: for an online batch of `n` multiplications the tape chunk
is guarded against `n * |open_type|` bytes — a shorter chunk makes
`Astra::exchange` fail with "insufficient preprocessing" regardless of the
received buffer, hence before any network exchange — while a successful
batch consumes the whole chunk, which holds exactly `2 * n * |open_type|`
bytes of `(gamma, -lambda(xy))` pairs and yields one result per pair. -/
theorem claim_C7_tape_consumption (k : ℕ) (my_num : ℤ)
    (pairs : List (FixedVec2 (ZMod (2 ^ k)) × FixedVec2 (ZMod (2 ^ k))))
    (tape recv : List (ZMod (2 ^ k))) :
    (tape.length * open_type_size k < pairs.length * open_type_size k →
      Astra.exchange my_num pairs tape recv
        = .error "insufficient preprocessing") ∧
    (∀ final, Astra.exchange my_num pairs tape recv = .ok final →
      tape.length * open_type_size k
          = 2 * pairs.length * open_type_size k ∧
      final.length = pairs.length) := by
  constructor
  · intro hbytes
    have hlen : tape.length < pairs.length :=
      Nat.lt_of_mul_lt_mul_right hbytes
    unfold Astra.exchange
    rw [if_pos hlen]
  · intro final h
    unfold Astra.exchange at h
    split at h
    · cases h
    · revert h
      cases hpr : Astra.pre_run my_num pairs tape with
      | none => intro h; cases h
      | some triple =>
        obtain ⟨results, os, tapeLeft⟩ := triple
        obtain ⟨h1, h2, h3⟩ := Astra.pre_run_lengths my_num pairs tape
          results os tapeLeft hpr
        simp only
        intro h
        split at h
        · cases h
        · rename_i hrecvOk
          split at h
          case isTrue hempty =>
            cases h
            have hnil : tapeLeft = [] := List.isEmpty_iff.mp hempty
            subst hnil
            constructor
            · rw [h1]
              simp only [List.length_nil, Nat.add_zero]
            · have hr : results.length ≤ recv.length :=
                Nat.le_of_not_lt hrecvOk
              rw [h2] at hr
              simp only [List.length_map, List.length_zip, h2]
              omega
          case isFalse => cases h

/-- C7, witness at concrete inputs: an empty tape chunk for a batch of one
multiplication fails with "insufficient preprocessing" whatever was
received, and the successful batch of one consumes a 16-byte chunk,
`2 * 1 * |open_type|` at `k = 64`. -/
theorem claim_C7_tape_consumption_witness :
    Astra.exchange 1
        ([(⟨0, 0⟩, ⟨0, 0⟩)] :
          List (FixedVec2 (ZMod (2 ^ 64)) × FixedVec2 (ZMod (2 ^ 64))))
        [] []
      = .error "insufficient preprocessing" ∧
    ([0, 0] : List (ZMod (2 ^ 64))).length * open_type_size 64
      = 2 * 1 * open_type_size 64 := by
  constructor
  · exact (claim_C7_tape_consumption 64 1 [(⟨0, 0⟩, ⟨0, 0⟩)] [] []).1
      (by decide)
  · have h : Astra.exchange 1
        ([(⟨0, 0⟩, ⟨0, 0⟩)] :
          List (FixedVec2 (ZMod (2 ^ 64)) × FixedVec2 (ZMod (2 ^ 64))))
        [0, 0] [0]
      = Except.ok [⟨(0 : ZMod (2 ^ 64)) - 0 + 0 + 0, 0⟩] := rfl
    have h2 := ((claim_C7_tape_consumption 64 1 [(⟨0, 0⟩, ⟨0, 0⟩)] [0, 0]
      [0]).2 [⟨(0 : ZMod (2 ^ 64)) - 0 + 0 + 0, 0⟩] h).1
    exact h2

end Claim7Main

section Claim1

/-- C1: for all well-formed Astra sharings of `x` and `y` over `Z/2^k` — the
online parties agree on the masked values, the helper holds the two lambda
shares matching the online neg-lambda limbs, and each sharing opens to its
value — the composed run of the preprocessing multiplication protocol, the
online multiplication exchange and the opening yields
`Open(multiply(x, y)) = Open(x) * Open(y)` in `Z/2^k`. -/
theorem claim_C1_multiplicativity (k : ℕ) (d : PrepDraws (ZMod (2 ^ k)))
    (x0 y0 x1 y1 x2 y2 : FixedVec2 (ZMod (2 ^ k))) (xv yv : ZMod (2 ^ k))
    (hx0 : x0 = ⟨- x1.c1, - x2.c1⟩) (hy0 : y0 = ⟨- y1.c1, - y2.c1⟩)
    (hxm : x2.c0 = x1.c0) (hym : y2.c0 = y1.c0)
    (hx : AstraMC.open_value x1 x2 = xv)
    (hy : AstraMC.open_value y1 y2 = yv) :
    Astra.multiply_open d x0 y0 x1 y1 x2 y2 = .ok (xv * yv) := by
  have hcomp : Astra.multiply_open d x0 y0 x1 y1 x2 y2 = Except.ok
      (AstraMC.open_value
        ⟨Astra.local_mul_V 1 x1 y1 - d.lam1 + d.gamma +
            (Astra.local_mul_V 2 x2 y2 - d.lam2 +
              AstraPrepProtocol.p0_message d x0 y0), d.lam1⟩
        ⟨Astra.local_mul_V 2 x2 y2 - d.lam2 +
            AstraPrepProtocol.p0_message d x0 y0 +
            (Astra.local_mul_V 1 x1 y1 - d.lam1 + d.gamma), d.lam2⟩) := rfl
  subst hx0 hy0 hx hy
  rw [hcomp]
  refine congrArg Except.ok ?_
  obtain ⟨mx1, lx1⟩ := x1
  obtain ⟨mx2, lx2⟩ := x2
  obtain ⟨my1, ly1⟩ := y1
  obtain ⟨my2, ly2⟩ := y2
  obtain ⟨l1, g, l2⟩ := d
  have hmx : mx2 = mx1 := hxm
  have hmy : my2 = my1 := hym
  subst hmx hmy
  simp only [AstraMC.open_value, AstraMC.prepare_summand,
    AstraMC.finalize_summands, AstraShare.m, AstraShare.lambda,
    AstraShare.neg_lambda, Astra.local_mul_V, AstraShare.local_mul_P1,
    AstraShare.local_mul_P2, AstraPrepProtocol.p0_message,
    AstraPrepShare.local_mul_P0, FixedVec2.sum]
  norm_num
  ring

/-- C1, witness at concrete inputs over `Z/2^64`: the sharing
`x1 = (3, 1), x2 = (3, 2)` of 6 and `y1 = (5, 3), y2 = (5, 4)` of 12, with
helper lambda shares `(-1, -2)` and `(-3, -4)` and PRNG draws `(7, 11, 13)`,
multiply and open to `6 * 12`. -/
theorem claim_C1_multiplicativity_witness :
    AstraMC.open_value (⟨3, 1⟩ : FixedVec2 (ZMod (2 ^ 64))) ⟨3, 2⟩ = 6 ∧
    AstraMC.open_value (⟨5, 3⟩ : FixedVec2 (ZMod (2 ^ 64))) ⟨5, 4⟩ = 12 ∧
    Astra.multiply_open (⟨7, 11, 13⟩ : PrepDraws (ZMod (2 ^ 64)))
        ⟨-1, -2⟩ ⟨-3, -4⟩ ⟨3, 1⟩ ⟨5, 3⟩ ⟨3, 2⟩ ⟨5, 4⟩
      = .ok (6 * 12) :=
  ⟨by decide, by decide,
    claim_C1_multiplicativity 64 ⟨7, 11, 13⟩ ⟨-1, -2⟩ ⟨-3, -4⟩
      ⟨3, 1⟩ ⟨5, 3⟩ ⟨3, 2⟩ ⟨5, 4⟩ 6 12 (by decide) (by decide) rfl rfl
      (by decide) (by decide)⟩

end Claim1
